import Mathlib

/-!
Shallow embedding of the coverage task plugin (`src/task.js`).

The plugin exposes three tasks — `resetCoverage`, `combineCoverage`,
`coverageReport` — that accumulate istanbul coverage data into a single
persisted JSON file `<cwd>/.nyc_output/out.json` and trigger report
generation.

Modelling conventions:
* A parsed coverage document (a JSON object keyed by source-file path) is an
  association list `CoverageMap`; JSON objects have pairwise-distinct keys
  (`NodupKeys`) and preserve insertion order, which association lists model
  faithfully.
* The per-file coverage record is reduced to its statement-hit table `s`
  (the only part the code in `src/task.js` inspects): a list of hit counts
  indexed by statement id.
* The filesystem is an explicit state `FsState`: the content of the
  persisted file, existence of the output folder, the set of other existing
  paths, and the readable JSON files (for `coverage-final.json`).
* A task invocation returns the new state, a trace of observable effects
  (warnings, subprocess spawns, reporting-engine runs, diagnostic prints)
  and either a result or a thrown error (`Except`).
* Fallible JSON parsing is modelled by `Option`: the string payload handed
  to `combineCoverage` is represented by `some` of its parse when it is
  valid JSON and by `none` when `JSON.parse` would throw.
-/

namespace CodeCoverage

/-- Statement-hit table of one file: entry `i` is the hit count of
statement `i` (the `s` table of an istanbul file coverage record). -/
abbrev FileRec := List Nat

/-- A coverage document: JSON object mapping source-file path to its
per-file record, as an insertion-ordered association list. -/
abbrev CoverageMap := List (String × FileRec)

/-- The keys (source-file paths) of a coverage document, in order. -/
def keysOf (m : CoverageMap) : List String := m.map Prod.fst

/-- First-occurrence lookup of a file path in a coverage document. -/
def lookupRec : CoverageMap → String → Option FileRec
  | [], _ => none
  | e :: rest, k => if e.1 = k then some e.2 else lookupRec rest k

/-- A well-formed JSON object has pairwise-distinct keys. -/
def NodupKeys (m : CoverageMap) : Prop := (keysOf m).Nodup

instance (m : CoverageMap) : Decidable (NodupKeys m) :=
  inferInstanceAs (Decidable (keysOf m).Nodup)

/-- Two coverage documents cover disjoint sets of files. -/
def DisjointKeys (a b : CoverageMap) : Prop :=
  ∀ k ∈ keysOf a, k ∉ keysOf b

instance (a b : CoverageMap) : Decidable (DisjointKeys a b) :=
  inferInstanceAs (Decidable (∀ k ∈ keysOf a, k ∉ keysOf b))

/-- Modelled from the spec: istanbul-lib-coverage's per-file merge (external
library, `coverageMap.merge`) combines two statement-hit tables by summing
hit counts position-wise; statements present on one side only keep their
counts. -/
def mergeRec : FileRec → FileRec → FileRec
  | [], ys => ys
  | x :: xs, [] => x :: xs
  | x :: xs, y :: ys => (x + y) :: mergeRec xs ys

/-- Merge of optional per-file records: a file present on one side only is
kept as is, a file present on both sides has its hit counts summed. -/
def mergeOptRec : Option FileRec → Option FileRec → Option FileRec
  | none, b => b
  | some x, none => some x
  | some x, some y => some (mergeRec x y)

/-- Merging one incoming file entry into an accumulated document: if the
file is already present its record is merged (summed), otherwise the entry
is appended. -/
def insertOrMerge (m : CoverageMap) : String × FileRec → CoverageMap
  | (k, v) =>
    if k ∈ keysOf m then
      m.map (fun e => if e.1 = k then (e.1, mergeRec e.2 v) else e)
    else m ++ [(k, v)]

/-- Modelled from the spec: istanbul-lib-coverage's
`CoverageMap.merge(other)` (external library) merges the incoming document
into the accumulated one with union/sum semantics per file: every file of
`incoming` is inserted into `prev`, summing hit counts when the file is
already present. -/
def mergeMap (prev incoming : CoverageMap) : CoverageMap :=
  incoming.foldl insertOrMerge prev

/-- `mergeRec` is commutative (hit counts are summed, not overwritten). -/
theorem mergeRec_comm (a b : FileRec) : mergeRec a b = mergeRec b a := by
  induction a generalizing b with
  | nil => cases b <;> rfl
  | cons x xs ih =>
    cases b with
    | nil => rfl
    | cons y ys => simp [mergeRec, ih, Nat.add_comm]

/-- `mergeRec` is associative. -/
theorem mergeRec_assoc (a b c : FileRec) :
    mergeRec (mergeRec a b) c = mergeRec a (mergeRec b c) := by
  induction a generalizing b c with
  | nil => cases b <;> cases c <;> rfl
  | cons x xs ih =>
    cases b with
    | nil => cases c <;> rfl
    | cons y ys =>
      cases c with
      | nil => rfl
      | cons z zs => simp [mergeRec, ih, Nat.add_assoc]

theorem mergeOptRec_none_right (a : Option FileRec) : mergeOptRec a none = a := by
  cases a <;> rfl

theorem mergeOptRec_comm (a b : Option FileRec) :
    mergeOptRec a b = mergeOptRec b a := by
  cases a <;> cases b <;> simp [mergeOptRec, mergeRec_comm]

theorem mergeOptRec_assoc (a b c : Option FileRec) :
    mergeOptRec (mergeOptRec a b) c = mergeOptRec a (mergeOptRec b c) := by
  cases a <;> cases b <;> cases c <;> simp [mergeOptRec, mergeRec_assoc]

theorem keysOf_cons (e : String × FileRec) (t : CoverageMap) :
    keysOf (e :: t) = e.1 :: keysOf t := rfl

theorem nodupKeys_cons_iff (e : String × FileRec) (t : CoverageMap) :
    NodupKeys (e :: t) ↔ e.1 ∉ keysOf t ∧ NodupKeys t := by
  unfold NodupKeys
  rw [keysOf_cons]
  exact List.nodup_cons

theorem lookupRec_eq_none_iff (m : CoverageMap) (k : String) :
    lookupRec m k = none ↔ k ∉ keysOf m := by
  induction m with
  | nil => simp [lookupRec, keysOf]
  | cons e rest ih =>
    by_cases h : e.1 = k
    · simp [lookupRec, h, keysOf]
    · simp [lookupRec, h, keysOf, ih]
      intro hk
      exact fun he => h he.symm

theorem lookupRec_append (m n : CoverageMap) (k : String) :
    lookupRec (m ++ n) k =
      (match lookupRec m k with
       | some v => some v
       | none => lookupRec n k) := by
  induction m with
  | nil => simp [lookupRec]
  | cons e rest ih =>
    by_cases h : e.1 = k <;> simp [lookupRec, h, ih]

theorem keysOf_append (m n : CoverageMap) :
    keysOf (m ++ n) = keysOf m ++ keysOf n := by
  simp [keysOf]

/-- Lookup after the in-place update branch of `insertOrMerge`, at the
updated key. -/
theorem lookupRec_map_update_self (m : CoverageMap) (k : String) (v : FileRec) :
    lookupRec (m.map (fun e => if e.1 = k then (e.1, mergeRec e.2 v) else e)) k =
      (lookupRec m k).map (fun o => mergeRec o v) := by
  induction m with
  | nil => simp [lookupRec]
  | cons e rest ih =>
    by_cases h : e.1 = k <;> simp [lookupRec, h, ih]

/-- Lookup after the in-place update branch of `insertOrMerge`, at any
other key. -/
theorem lookupRec_map_update_ne (m : CoverageMap) (k k' : String) (v : FileRec)
    (h : k' ≠ k) :
    lookupRec (m.map (fun e => if e.1 = k then (e.1, mergeRec e.2 v) else e)) k' =
      lookupRec m k' := by
  have hkk : ¬ k = k' := fun hh => h hh.symm
  induction m with
  | nil => simp [lookupRec]
  | cons e rest ih =>
    by_cases he : e.1 = k
    · simp [lookupRec, he, hkk, ih]
    · simp [lookupRec, he, ih]

theorem lookupRec_insertOrMerge_self (m : CoverageMap) (k : String) (v : FileRec) :
    lookupRec (insertOrMerge m (k, v)) k = mergeOptRec (lookupRec m k) (some v) := by
  simp only [insertOrMerge]
  by_cases h : k ∈ keysOf m
  · rw [if_pos h, lookupRec_map_update_self]
    cases hl : lookupRec m k with
    | none => exact absurd ((lookupRec_eq_none_iff m k).mp hl) (by simpa using h)
    | some o => simp [mergeOptRec]
  · rw [if_neg h, lookupRec_append, (lookupRec_eq_none_iff m k).mpr h]
    simp [lookupRec, mergeOptRec]

theorem lookupRec_insertOrMerge_ne (m : CoverageMap) (k k' : String) (v : FileRec)
    (h : k' ≠ k) :
    lookupRec (insertOrMerge m (k, v)) k' = lookupRec m k' := by
  have hkk : ¬ k = k' := fun hh => h hh.symm
  simp only [insertOrMerge]
  by_cases hm : k ∈ keysOf m
  · rw [if_pos hm]
    exact lookupRec_map_update_ne m k k' v h
  · rw [if_neg hm, lookupRec_append]
    cases hl : lookupRec m k' with
    | none => simp [lookupRec, hkk]
    | some o => simp

theorem keysOf_insertOrMerge (m : CoverageMap) (k : String) (v : FileRec) :
    keysOf (insertOrMerge m (k, v)) =
      if k ∈ keysOf m then keysOf m else keysOf m ++ [k] := by
  simp only [insertOrMerge]
  by_cases h : k ∈ keysOf m
  · rw [if_pos h, if_pos h]
    unfold keysOf
    rw [List.map_map]
    apply List.map_congr_left
    intro e _
    by_cases he : e.1 = k <;> simp [he]
  · rw [if_neg h, if_neg h, keysOf_append]
    rfl

theorem nodupKeys_insertOrMerge (m : CoverageMap) (k : String) (v : FileRec)
    (h : NodupKeys m) : NodupKeys (insertOrMerge m (k, v)) := by
  unfold NodupKeys
  rw [keysOf_insertOrMerge]
  by_cases hk : k ∈ keysOf m
  · simpa [hk] using h
  · rw [if_neg hk]
    simpa [List.nodup_append] using ⟨h, hk⟩

/-- Pointwise characterisation of the istanbul merge: for a well-formed
incoming document, looking up a file in the merged document merges the two
individual lookups (union of files, sum of hit counts on overlap — never an
overwrite). -/
theorem lookupRec_mergeMap (n : CoverageMap) (hn : NodupKeys n) :
    ∀ (p : CoverageMap) (k : String),
      lookupRec (mergeMap p n) k = mergeOptRec (lookupRec p k) (lookupRec n k) := by
  induction n with
  | nil =>
    intro p k
    simp [mergeMap, lookupRec, mergeOptRec_none_right]
  | cons e t ih =>
    obtain ⟨k1, v1⟩ := e
    obtain ⟨hniq, hnd⟩ := (nodupKeys_cons_iff _ _).mp hn
    intro p k
    have hstep : mergeMap p ((k1, v1) :: t) = mergeMap (insertOrMerge p (k1, v1)) t := rfl
    rw [hstep, ih hnd]
    by_cases hk : k = k1
    · subst hk
      rw [(lookupRec_eq_none_iff t k).mpr hniq, mergeOptRec_none_right,
        lookupRec_insertOrMerge_self]
      have hh : lookupRec ((k, v1) :: t) k = some v1 := by simp [lookupRec]
      rw [hh]
    · have hne : ¬ k1 = k := fun hh => hk hh.symm
      rw [lookupRec_insertOrMerge_ne p k1 k v1 hk]
      have hh : lookupRec ((k1, v1) :: t) k = lookupRec t k := by
        simp [lookupRec, hne]
      rw [hh]

theorem nodupKeys_mergeMap (n : CoverageMap) (hn : NodupKeys n) :
    ∀ (p : CoverageMap), NodupKeys p → NodupKeys (mergeMap p n) := by
  induction n with
  | nil => intro p hp; simpa [mergeMap] using hp
  | cons e t ih =>
    obtain ⟨k1, v1⟩ := e
    obtain ⟨hniq, hnd⟩ := (nodupKeys_cons_iff _ _).mp hn
    intro p hp
    have hstep : mergeMap p ((k1, v1) :: t) = mergeMap (insertOrMerge p (k1, v1)) t := rfl
    rw [hstep]
    exact ih hnd _ (nodupKeys_insertOrMerge p k1 v1 hp)

/-- Merging a document whose files are all new appends it wholesale. -/
theorem mergeMap_eq_append (n : CoverageMap) (hn : NodupKeys n) :
    ∀ (p : CoverageMap), (∀ k ∈ keysOf n, k ∉ keysOf p) →
      mergeMap p n = p ++ n := by
  induction n with
  | nil => intro p _; simp [mergeMap]
  | cons e t ih =>
    obtain ⟨k1, v1⟩ := e
    obtain ⟨hniq, hnd⟩ := (nodupKeys_cons_iff _ _).mp hn
    intro p hdisj
    have hnotin : k1 ∉ keysOf p := hdisj k1 (by simp [keysOf_cons])
    have hins : insertOrMerge p (k1, v1) = p ++ [(k1, v1)] := by
      simp only [insertOrMerge]
      rw [if_neg hnotin]
    have hstep : mergeMap p ((k1, v1) :: t) = mergeMap (insertOrMerge p (k1, v1)) t := rfl
    have hd2 : ∀ k ∈ keysOf t, k ∉ keysOf (p ++ [(k1, v1)]) := by
      intro k hk
      rw [keysOf_append]
      simp only [List.mem_append]
      rintro (hkp | hke)
      · exact hdisj k (by simp [keysOf_cons, hk]) hkp
      · have hkk : k = k1 := by simpa [keysOf] using hke
        exact hniq (hkk ▸ hk)
    rw [hstep, hins, ih hnd _ hd2]
    simp

/-! ## Paths and filesystem model -/

/-- `path.join(a, b)` for the simple two-segment joins the plugin performs. -/
def joinPath (a b : String) : String := a ++ "/" ++ b

/-- A POSIX path is absolute when it starts with a slash. -/
def isAbsolutePath (p : String) : Bool :=
  match p.data with
  | [] => false
  | c :: _ => c = '/'

/-- `path.resolve(p)` against the current working directory: an absolute
path is kept, a relative one is joined onto `cwd`. -/
def resolvePath (cwd p : String) : String :=
  if isAbsolutePath p then p else joinPath cwd p

/-- Final path segment (`path.basename`). -/
def basenameOf (p : String) : String :=
  String.mk ((p.data.reverse.takeWhile (fun c => c != '/')).reverse)

/-- Reporter options handed to the NYC engine (`readNycOptions` result).
`tempDir` is the camel-case `tempDir` key and `reportDir` the kebab-case
`report-dir` key that `src/task.js` overrides; every other loaded option is
carried opaquely in `rest`. An option whose value is JS-falsy (absent,
null, empty string) is modelled as `none`. -/
structure NycOptions where
  tempDir : Option String
  reportDir : Option String
  rest : List (String × String)
deriving DecidableEq

/-- Ambient configuration fixed at module load: the working directory, the
optional `coverage:report` entry of `package.json`'s `scripts` (JS-falsy
values modelled as `none`), and the reporter options.

Modelled from the spec: `readNycOptions` (task-utils, not under `src/`)
loads reporter configuration from project configuration files; its result
is supplied here as the environment field `nycOptions`. -/
structure Env where
  cwd : String
  customReportScript : Option String
  nycOptions : NycOptions
deriving DecidableEq

/-- The filesystem as the plugin observes it: whether `.nyc_output` exists,
the parsed content of the persisted coverage file `out.json` (`none` when
the file is absent), the set of other existing paths (used to resolve the
source paths recorded in the coverage file), and the readable JSON files
keyed by full filename (used for `coverage-final.json`). -/
structure FsState where
  nycFolderExists : Bool
  nycFile : Option CoverageMap
  existingPaths : List String
  jsonFiles : List (String × CoverageMap)
deriving DecidableEq

/-- Errors thrown by a task invocation. -/
inductive TaskErr where
  | parse
  | enoent
  | typeError
deriving DecidableEq

/-- Value returned by a task to the host dispatcher: `null`, the pending
completion of the custom report script, or the report folder path. -/
inductive TaskResult where
  | null
  | scriptCompletion (scriptKey : String)
  | reportFolder (path : String)
deriving DecidableEq

/-- Observable side effects of a task invocation, in order. -/
inductive Effect where
  | warnMissing
  | showNycInfo
  | fsSearch
  | normalizePaths
  | runScript (runner scriptKey : String) (inheritStdio : Bool)
  | nycReport (opts : NycOptions)
  | printStats (stats : List (String × Nat × Nat))
deriving DecidableEq

/-- Outcome of one task invocation: the filesystem afterwards, the effect
trace, and the result or thrown error. -/
structure TaskOut where
  state : FsState
  trace : List Effect
  result : Except TaskErr TaskResult

/-! ## Coverage Store (`saveCoverage` and the load in `combineCoverage`) -/

/-- `saveCoverage` (src/task.js lines 36-43): create `.nyc_output` if
needed, then overwrite `out.json` with the serialized map. The file content
is modelled as the JSON value itself (JSON serialization of a coverage map
is injective, so equality of stored values is JSON serialization
equality). -/
def saveCoverage (coverage : CoverageMap) (st : FsState) : FsState :=
  { st with nycFolderExists := true, nycFile := some coverage }

/-- The empty coverage map produced by `istanbul.createCoverageMap` on an empty object. -/
def emptyCoverageMap : CoverageMap := []

/-- The load performed by `combineCoverage` (src/task.js lines 114-116) and
promised by the Coverage Store contract: the persisted map, or an empty map
when no file exists yet. -/
def loadPrevious (st : FsState) : CoverageMap :=
  (st.nycFile).getD emptyCoverageMap

/-! ## The tasks -/

/-- Modelled from the spec: `fixSourcePaths` (support-utils, not under
`src/`) rewrites the source-file path entries of an incoming payload to be
resolvable from the current working directory; under the data-model
invariant that coverage-map keys are already absolute resolvable paths it
leaves the payload unchanged, so it is modelled as the identity. -/
def fixSourcePaths (coverage : CoverageMap) : CoverageMap := coverage

/-- `resetCoverage` (src/task.js lines 86-100): in interactive mode persist
an empty coverage map, otherwise do nothing; return `null` either way. -/
def resetCoverage (isInteractive : Bool) (st : FsState) : TaskOut :=
  if isInteractive then
    { state := saveCoverage emptyCoverageMap st, trace := [], result := .ok .null }
  else
    { state := st, trace := [], result := .ok .null }

/-- The stringified coverage payload sent by the test runner, represented
by its `JSON.parse` result: `some` of the parsed document for valid JSON,
`none` when parsing throws. -/
abbrev SentCoverage := Option CoverageMap

/-- `combineCoverage` (src/task.js lines 109-123): parse the payload (a
parse failure propagates before anything is written), fix its source
paths, load the previously persisted map (or an empty one), merge the
payload into it, persist the merged map, and return `null`. -/
def combineCoverage (sentCoverage : SentCoverage) (st : FsState) : TaskOut :=
  match sentCoverage with
  | none => { state := st, trace := [], result := .error .parse }
  | some coverage =>
    let coverage := fixSourcePaths coverage
    let previous := loadPrevious st
    let coverageMap := mergeMap previous coverage
    { state := saveCoverage coverageMap st, trace := [], result := .ok .null }

/-! ## Report helpers -/

/-- Modelled from the spec: `checkAllPathsNotFound` (task-utils, not under
`src/`) reads the persisted coverage file and reports whether all
referenced source paths fail to resolve on disk. -/
def checkAllPathsNotFound (st : FsState) (cov : CoverageMap) : Bool :=
  (keysOf cov).all (fun p => p ∉ st.existingPaths)

/-- Modelled from the spec: `tryFindingLocalFiles` (task-utils, not under
`src/`) searches the working tree for files matching the recorded
basenames and rewrites a recorded path in place exactly when a unique match
is found. -/
def tryFindingLocalFiles (st : FsState) (cov : CoverageMap) : CoverageMap :=
  cov.map (fun e =>
    match st.existingPaths.filter (fun q => basenameOf q = basenameOf e.1) with
    | [q] => (q, e.2)
    | _ => e)

/-- Modelled from the spec: `resolveRelativePaths` (task-utils, not under
`src/`) rewrites any remaining relative source paths in the persisted file
against the current working directory. -/
def resolveRelativePaths (env : Env) (cov : CoverageMap) : CoverageMap :=
  cov.map (fun e => (resolvePath env.cwd e.1, e.2))

/-- The coverage folder `<cwd>/.nyc_output` (src/task.js lines 19-22). -/
def coverageFolderOf (env : Env) : String := joinPath env.cwd ".nyc_output"

/-- The two report-time overrides of the loaded NYC options (src/task.js
lines 158-164): `tempDir` is forced to the coverage folder, and
`report-dir`, when present, is resolved to an absolute path; everything
else is passed through unchanged. -/
def overrideNycOptions (env : Env) (opts : NycOptions) : NycOptions :=
  { opts with
      tempDir := some (coverageFolderOf env),
      reportDir := opts.reportDir.map (fun d => resolvePath env.cwd d) }

def lookupJson : List (String × CoverageMap) → String → Option CoverageMap
  | [], _ => none
  | e :: rest, k => if e.1 = k then some e.2 else lookupJson rest k

/-- Lookup of a readable JSON file's parsed content (`readFileSync` plus
`JSON.parse`); `none` means `readFileSync` throws ENOENT. -/
def readJsonFile (st : FsState) (filename : String) : Option CoverageMap :=
  lookupJson st.jsonFiles filename

/-- Covered statements of one `s` table: entries with a truthy (non-zero)
hit count (src/task.js lines 56-63). -/
def countCoveredStatements (s : FileRec) : Nat :=
  (s.filter (fun hit => hit != 0)).length

/-- Per-file `(covered, total)` statement counts printed by the diagnostic
pass (src/task.js lines 54-73). -/
def statementStats (finalCoverage : CoverageMap) : List (String × Nat × Nat) :=
  finalCoverage.map (fun e => (e.1, countCoveredStatements e.2, e.2.length))

/-- In the JS source the guard of `maybePrintFinalCoverageFiles` is
`if (!existsSync)`: it tests the truthiness of the `existsSync` function
reference itself and never calls it on the filename. A defined function
reference is always truthy, so the guard's condition is this constant. -/
def existsSyncRefTruthy : Bool := true

/-- Outcome of `maybePrintFinalCoverageFiles`: the early-return branch for
a missing file, a throw from `readFileSync`, or the diagnostic print. -/
inductive PrintOutcome where
  | skippedMissing
  | errored (e : TaskErr)
  | printed (stats : List (String × Nat × Nat))
deriving DecidableEq

/-- `maybePrintFinalCoverageFiles` (src/task.js lines 45-74): form
`<folder>/coverage-final.json`, take the (buggy) early return when
`!existsSync` is truthy, otherwise read and parse the file — throwing
ENOENT when it does not exist — and print per-file statement stats. -/
def maybePrintFinalCoverageFiles (st : FsState) (folder : String) : PrintOutcome :=
  let jsonReportFilename := joinPath folder "coverage-final.json"
  if !existsSyncRefTruthy then
    .skippedMissing
  else
    match readJsonFile st jsonReportFilename with
    | none => .errored .enoent
    | some finalCoverage => .printed (statementStats finalCoverage)

/-- Dispatch tail of `coverageReport` (src/task.js lines 145-182), run on
the state after the path-fixing steps: when a custom `coverage:report`
script exists, spawn `npm run coverage:report` with inherited stdio and
return its pending completion; otherwise override the loaded NYC options,
run the NYC reporting engine, and afterwards print the final-coverage
diagnostics and return the report folder (`path.join` on an undefined
report dir throws a TypeError). -/
def reportDispatch (env : Env) (st1 : FsState) : List Effect × Except TaskErr TaskResult :=
  match env.customReportScript with
  | some _script =>
    ([.runScript "npm" "coverage:report" true], .ok (.scriptCompletion "coverage:report"))
  | none =>
    let opts := overrideNycOptions env env.nycOptions
    match opts.reportDir with
    | none => ([.nycReport opts], .error .typeError)
    | some reportFolder =>
      match maybePrintFinalCoverageFiles st1 reportFolder with
      | .skippedMissing => ([.nycReport opts], .ok (.reportFolder reportFolder))
      | .errored e => ([.nycReport opts], .error e)
      | .printed stats =>
        ([.nycReport opts, .printStats stats], .ok (.reportFolder reportFolder))

/-- The persisted-file rewrite performed by the report task before
dispatch: the filesystem-search fallback exactly when every recorded path
is unresolvable, then relative-path normalization. -/
def reportTransformedState (env : Env) (st : FsState) (cov : CoverageMap) : FsState :=
  { st with
      nycFile := some (resolveRelativePaths env
        (if checkAllPathsNotFound st cov then tryFindingLocalFiles st cov else cov)) }

/-- `coverageReport` (src/task.js lines 129-182): warn and return `null`
when no persisted file exists; otherwise print the NYC info diagnostics,
run the filesystem-search fallback when all recorded paths are
unresolvable, normalize remaining relative paths, and dispatch to the
custom script or the NYC engine. -/
def coverageReport (env : Env) (st : FsState) : TaskOut :=
  match st.nycFile with
  | none => { state := st, trace := [.warnMissing], result := .ok .null }
  | some cov =>
    let st1 := reportTransformedState env st cov
    let d := reportDispatch env st1
    { state := st1,
      trace := .showNycInfo ::
        ((if checkAllPathsNotFound st cov then [.fsSearch] else []) ++
          .normalizePaths :: d.1),
      result := d.2 }

/-! ## Claim theorems -/

/-- C2: `resetCoverage` with the interactive flag true replaces the
persisted coverage file with an empty coverage map regardless of its prior
contents; with the flag false it leaves the persisted file (indeed the
whole filesystem state) unchanged; in both branches it returns `null`. -/
theorem resetCoverage_semantics (st : FsState) :
    (resetCoverage true st).state.nycFile = some emptyCoverageMap
    ∧ resetCoverage false st = { state := st, trace := [], result := .ok .null }
    ∧ (∀ b : Bool, (resetCoverage b st).result = .ok .null) := by
  refine ⟨rfl, rfl, ?_⟩
  intro b
  cases b <;> rfl

/-- C3: a `combineCoverage` payload that is not valid JSON makes the parse
failure propagate uncaught, and the filesystem — in particular the
persisted coverage file — is left exactly as it was before the call. -/
theorem combineCoverage_malformed (st : FsState) :
    (combineCoverage none st).result = .error TaskErr.parse
    ∧ (combineCoverage none st).state = st := ⟨rfl, rfl⟩

/-- C9: saving a coverage map via the Coverage Store and immediately
loading the persisted file yields the original map (the persisted file
content is the JSON value itself, so this is JSON serialization
equality). -/
theorem saveCoverage_roundTrip (coverage : CoverageMap) (st : FsState) :
    loadPrevious (saveCoverage coverage st) = coverage := rfl

/-- C10: the early-return branch of `maybePrintFinalCoverageFiles` is
unreachable for every input, because the guard tests the truthiness of the
`existsSync` function reference rather than calling it; consequently the
function always attempts to read `coverage-final.json` from the given
folder and throws ENOENT when that file does not exist. -/
theorem maybePrint_guard_unreachable (st : FsState) (folder : String) :
    maybePrintFinalCoverageFiles st folder ≠ PrintOutcome.skippedMissing
    ∧ (readJsonFile st (joinPath folder "coverage-final.json") = none →
        maybePrintFinalCoverageFiles st folder = PrintOutcome.errored TaskErr.enoent) := by
  constructor
  · unfold maybePrintFinalCoverageFiles existsSyncRefTruthy
    cases h : readJsonFile st (joinPath folder "coverage-final.json") <;> simp [h]
  · intro h
    unfold maybePrintFinalCoverageFiles existsSyncRefTruthy
    simp [h]

def c10St : FsState :=
  { nycFolderExists := false, nycFile := none, existingPaths := [], jsonFiles := [] }

theorem maybePrint_guard_unreachable_witness :
    maybePrintFinalCoverageFiles c10St "/rep" ≠ PrintOutcome.skippedMissing
    ∧ maybePrintFinalCoverageFiles c10St "/rep" = PrintOutcome.errored TaskErr.enoent :=
  ⟨(maybePrint_guard_unreachable c10St "/rep").1,
   (maybePrint_guard_unreachable c10St "/rep").2 rfl⟩

/-- C4: when the persisted coverage file does not exist, `coverageReport`
emits a warning and returns `null`, leaves the state unchanged, and spawns
no subprocess and no run of the reporting engine. -/
theorem coverageReport_missingFile (env : Env) (st : FsState)
    (h : st.nycFile = none) :
    (coverageReport env st).result = .ok TaskResult.null
    ∧ (coverageReport env st).state = st
    ∧ (coverageReport env st).trace = [Effect.warnMissing]
    ∧ (∀ r sc b, Effect.runScript r sc b ∉ (coverageReport env st).trace)
    ∧ (∀ o, Effect.nycReport o ∉ (coverageReport env st).trace) := by
  unfold coverageReport
  rw [h]
  refine ⟨rfl, rfl, rfl, ?_, ?_⟩
  · intro r sc b
    simp
  · intro o
    simp

def c4Env : Env :=
  { cwd := "/cwd", customReportScript := none,
    nycOptions := { tempDir := none, reportDir := none, rest := [] } }

def c4St : FsState :=
  { nycFolderExists := false, nycFile := none, existingPaths := [], jsonFiles := [] }

theorem coverageReport_missingFile_witness :
    c4St.nycFile = none
    ∧ (coverageReport c4Env c4St).result = .ok TaskResult.null
    ∧ (coverageReport c4Env c4St).trace = [Effect.warnMissing] :=
  ⟨rfl, (coverageReport_missingFile c4Env c4St rfl).1,
   (coverageReport_missingFile c4Env c4St rfl).2.2.1⟩

/-- C5: when `package.json` defines a script under the fixed key
`coverage:report`, `coverageReport` shells out to exactly `npm run
coverage:report` with inherited standard streams and returns that script
run's asynchronous completion, and the NYC reporting engine is never
invoked. -/
theorem coverageReport_customScript (env : Env) (st : FsState) (cov : CoverageMap)
    (s : String) (hfile : st.nycFile = some cov)
    (hscript : env.customReportScript = some s) :
    (coverageReport env st).result = .ok (TaskResult.scriptCompletion "coverage:report")
    ∧ Effect.runScript "npm" "coverage:report" true ∈ (coverageReport env st).trace
    ∧ (∀ o, Effect.nycReport o ∉ (coverageReport env st).trace) := by
  cases hc : checkAllPathsNotFound st cov <;>
    simp [coverageReport, hfile, reportDispatch, hscript, hc]

def c5Env : Env :=
  { cwd := "/cwd", customReportScript := some "nyc report --reporter text",
    nycOptions := { tempDir := none, reportDir := none, rest := [] } }

def c5St : FsState :=
  { nycFolderExists := true, nycFile := some [("/cwd/a.js", [1])],
    existingPaths := ["/cwd/a.js"], jsonFiles := [] }

theorem coverageReport_customScript_witness :
    (coverageReport c5Env c5St).result = .ok (TaskResult.scriptCompletion "coverage:report")
    ∧ Effect.runScript "npm" "coverage:report" true ∈ (coverageReport c5Env c5St).trace :=
  ⟨(coverageReport_customScript c5Env c5St [("/cwd/a.js", [1])]
      "nyc report --reporter text" rfl rfl).1,
   (coverageReport_customScript c5Env c5St [("/cwd/a.js", [1])]
      "nyc report --reporter text" rfl rfl).2.1⟩

/-- C6: with no custom report script, `coverageReport` invokes the NYC
engine on the loaded reporter options with exactly two overrides — the
temp-directory option forced to `<cwd>/.nyc_output` and the
report-directory option, when present, resolved to an absolute path — and
every other loaded option passed through unchanged. -/
theorem coverageReport_nycOverrides (env : Env) (st : FsState) (cov : CoverageMap)
    (hfile : st.nycFile = some cov) (hscript : env.customReportScript = none) :
    Effect.nycReport (overrideNycOptions env env.nycOptions) ∈ (coverageReport env st).trace
    ∧ (overrideNycOptions env env.nycOptions).tempDir = some (joinPath env.cwd ".nyc_output")
    ∧ (overrideNycOptions env env.nycOptions).reportDir
        = env.nycOptions.reportDir.map (fun d => resolvePath env.cwd d)
    ∧ (overrideNycOptions env env.nycOptions).rest = env.nycOptions.rest := by
  refine ⟨?_, rfl, rfl, rfl⟩
  simp only [coverageReport, hfile, reportDispatch, hscript]
  cases hrd : (overrideNycOptions env env.nycOptions).reportDir with
  | none => simp
  | some d =>
    cases hmp : maybePrintFinalCoverageFiles (reportTransformedState env st cov) d <;>
      simp [hmp]

def c6Env : Env :=
  { cwd := "/cwd", customReportScript := none,
    nycOptions :=
      { tempDir := none, reportDir := some "coverage", rest := [("reporter", "text")] } }

def c6St : FsState :=
  { nycFolderExists := true, nycFile := some [("/cwd/a.js", [1])],
    existingPaths := ["/cwd/a.js"], jsonFiles := [] }

theorem coverageReport_nycOverrides_witness :
    Effect.nycReport (overrideNycOptions c6Env c6Env.nycOptions)
      ∈ (coverageReport c6Env c6St).trace
    ∧ (overrideNycOptions c6Env c6Env.nycOptions).tempDir
        = some (joinPath c6Env.cwd ".nyc_output")
    ∧ (overrideNycOptions c6Env c6Env.nycOptions).reportDir
        = c6Env.nycOptions.reportDir.map (fun d => resolvePath c6Env.cwd d)
    ∧ (overrideNycOptions c6Env c6Env.nycOptions).rest = c6Env.nycOptions.rest :=
  coverageReport_nycOverrides c6Env c6St [("/cwd/a.js", [1])] rfl rfl

/-- C7: in a non-short-circuited `coverageReport` run, the trace is exactly
the NYC info diagnostic, then the filesystem-search fallback if and only if
all recorded source paths fail to resolve on disk, then path
normalization, and only then the dispatch effects (which never contain the
fallback). -/
theorem coverageReport_pathFixOrder (env : Env) (st : FsState) (cov : CoverageMap)
    (hfile : st.nycFile = some cov) :
    (coverageReport env st).trace
      = Effect.showNycInfo ::
          ((if checkAllPathsNotFound st cov then [Effect.fsSearch] else []) ++
            Effect.normalizePaths ::
              (reportDispatch env (reportTransformedState env st cov)).1)
    ∧ Effect.fsSearch ∉ (reportDispatch env (reportTransformedState env st cov)).1
    ∧ ((Effect.fsSearch ∈ (coverageReport env st).trace)
        ↔ checkAllPathsNotFound st cov = true) := by
  have h1 : (coverageReport env st).trace
      = Effect.showNycInfo ::
          ((if checkAllPathsNotFound st cov then [Effect.fsSearch] else []) ++
            Effect.normalizePaths ::
              (reportDispatch env (reportTransformedState env st cov)).1) := by
    unfold coverageReport
    rw [hfile]
  have h2 : Effect.fsSearch ∉ (reportDispatch env (reportTransformedState env st cov)).1 := by
    unfold reportDispatch
    cases env.customReportScript with
    | some s => simp
    | none =>
      simp only
      cases hrd : (overrideNycOptions env env.nycOptions).reportDir with
      | none => simp
      | some d =>
        cases hmp :
            maybePrintFinalCoverageFiles (reportTransformedState env st cov) d <;>
          simp [hmp]
  refine ⟨h1, h2, ?_⟩
  rw [h1]
  cases hc : checkAllPathsNotFound st cov <;> simp [h2]

def c7Env : Env :=
  { cwd := "/cwd", customReportScript := some "report",
    nycOptions := { tempDir := none, reportDir := none, rest := [] } }

def c7St : FsState :=
  { nycFolderExists := true, nycFile := some [("/old/build/app.js", [1, 0])],
    existingPaths := ["/cwd/src/app.js"], jsonFiles := [] }

def c7Cov : CoverageMap := [("/old/build/app.js", [1, 0])]

theorem coverageReport_pathFixOrder_witness :
    (coverageReport c7Env c7St).trace
      = Effect.showNycInfo ::
          ((if checkAllPathsNotFound c7St c7Cov then [Effect.fsSearch] else []) ++
            Effect.normalizePaths ::
              (reportDispatch c7Env (reportTransformedState c7Env c7St c7Cov)).1)
    ∧ Effect.fsSearch ∉ (reportDispatch c7Env (reportTransformedState c7Env c7St c7Cov)).1
    ∧ ((Effect.fsSearch ∈ (coverageReport c7Env c7St).trace)
        ↔ checkAllPathsNotFound c7St c7Cov = true) :=
  coverageReport_pathFixOrder c7Env c7St c7Cov rfl

/-- Running a sequence of `combineCoverage` calls, threading the
filesystem state. -/
def combineMany (payloads : List CoverageMap) (st : FsState) : FsState :=
  payloads.foldl (fun s p => (combineCoverage (some p) s).state) st

/-- The union of a list of coverage documents over pairwise-disjoint file
sets: their concatenation. -/
def unionAll (payloads : List CoverageMap) : CoverageMap := payloads.flatten

theorem loadPrevious_combineMany (payloads : List CoverageMap) :
    ∀ st : FsState,
      loadPrevious (combineMany payloads st) = payloads.foldl mergeMap (loadPrevious st) := by
  induction payloads with
  | nil => intro st; rfl
  | cons p t ih =>
    intro st
    calc loadPrevious (combineMany (p :: t) st)
        = loadPrevious (combineMany t ((combineCoverage (some p) st).state)) := rfl
      _ = t.foldl mergeMap (loadPrevious ((combineCoverage (some p) st).state)) := ih _
      _ = t.foldl mergeMap (mergeMap (loadPrevious st) p) := rfl
      _ = (p :: t).foldl mergeMap (loadPrevious st) := rfl

theorem foldl_mergeMap_disjoint :
    ∀ (payloads : List CoverageMap) (acc : CoverageMap),
      (∀ p ∈ payloads, NodupKeys p) →
      List.Pairwise DisjointKeys payloads →
      (∀ p ∈ payloads, ∀ k ∈ keysOf p, k ∉ keysOf acc) →
      payloads.foldl mergeMap acc = acc ++ payloads.flatten := by
  intro payloads
  induction payloads with
  | nil => intro acc _ _ _; simp
  | cons p t ih =>
    intro acc hnd hpw hdisj
    have hp : NodupKeys p := hnd p (by simp)
    have hmerge : mergeMap acc p = acc ++ p :=
      mergeMap_eq_append p hp acc (hdisj p (by simp))
    have hpwt : List.Pairwise DisjointKeys t := (List.pairwise_cons.mp hpw).2
    have hpt : ∀ q ∈ t, DisjointKeys p q := (List.pairwise_cons.mp hpw).1
    have hd2 : ∀ q ∈ t, ∀ k ∈ keysOf q, k ∉ keysOf (acc ++ p) := by
      intro q hq k hk
      rw [keysOf_append]
      simp only [List.mem_append]
      rintro (hka | hkp)
      · exact hdisj q (by simp [hq]) k hk hka
      · exact hpt q hq k hkp hk
    calc (p :: t).foldl mergeMap acc
        = t.foldl mergeMap (mergeMap acc p) := rfl
      _ = t.foldl mergeMap (acc ++ p) := by rw [hmerge]
      _ = (acc ++ p) ++ t.flatten := ih (acc ++ p) (fun q hq => hnd q (by simp [hq])) hpwt hd2
      _ = acc ++ (p :: t).flatten := by simp

/-- C1: starting from an absent persisted file, a sequence of
`combineCoverage` calls over payloads with pairwise-disjoint file sets
leaves the persisted coverage map equal to the union of all payloads (no
data loss, no double counting), and the per-file merge is a union/sum of
hit counts — characterised pointwise, associative and commutative, never
an overwrite. -/
theorem combineCoverage_disjoint_union (payloads : List CoverageMap) (st : FsState)
    (a b c : CoverageMap) (k : String)
    (hstart : st.nycFile = none)
    (hnd : ∀ p ∈ payloads, NodupKeys p)
    (hpw : List.Pairwise DisjointKeys payloads)
    (ha : NodupKeys a) (hb : NodupKeys b) (hc : NodupKeys c) :
    loadPrevious (combineMany payloads st) = unionAll payloads
    ∧ lookupRec (mergeMap a b) k = mergeOptRec (lookupRec a k) (lookupRec b k)
    ∧ lookupRec (mergeMap (mergeMap a b) c) k = lookupRec (mergeMap a (mergeMap b c)) k
    ∧ lookupRec (mergeMap a b) k = lookupRec (mergeMap b a) k := by
  refine ⟨?_, ?_, ?_, ?_⟩
  · rw [loadPrevious_combineMany]
    have h0 : loadPrevious st = [] := by
      simp [loadPrevious, hstart, emptyCoverageMap]
    rw [h0]
    rw [foldl_mergeMap_disjoint payloads [] hnd hpw (by intro p _ k _; simp [keysOf])]
    simp [unionAll]
  · exact lookupRec_mergeMap b hb a k
  · rw [lookupRec_mergeMap c hc (mergeMap a b) k,
      lookupRec_mergeMap b hb a k,
      lookupRec_mergeMap (mergeMap b c) (nodupKeys_mergeMap c hc b hb) a k,
      lookupRec_mergeMap c hc b k]
    exact mergeOptRec_assoc _ _ _
  · rw [lookupRec_mergeMap b hb a k, lookupRec_mergeMap a ha b k]
    exact mergeOptRec_comm _ _

def c1Payloads : List CoverageMap :=
  [[("/cwd/a.js", [1, 0])], [("/cwd/b.js", [2]), ("/cwd/c.js", [0, 3])]]

def c1St : FsState :=
  { nycFolderExists := false, nycFile := none, existingPaths := [], jsonFiles := [] }

def c1A : CoverageMap := [("/x", [1]), ("/z", [5])]

def c1B : CoverageMap := [("/y", [2])]

def c1C : CoverageMap := [("/x", [3, 1])]

theorem combineCoverage_disjoint_union_witness :
    loadPrevious (combineMany c1Payloads c1St) = unionAll c1Payloads
    ∧ lookupRec (mergeMap c1A c1B) "/x"
        = mergeOptRec (lookupRec c1A "/x") (lookupRec c1B "/x")
    ∧ lookupRec (mergeMap (mergeMap c1A c1B) c1C) "/x"
        = lookupRec (mergeMap c1A (mergeMap c1B c1C)) "/x"
    ∧ lookupRec (mergeMap c1A c1B) "/x" = lookupRec (mergeMap c1B c1A) "/x" :=
  combineCoverage_disjoint_union c1Payloads c1St c1A c1B c1C "/x"
    rfl (by decide) (by decide) (by decide) (by decide) (by decide)

/-- Concrete run showing the C8 divergence: the internal engine path is
taken, a report directory is configured and resolved, the engine completes,
but `coverage-final.json` is absent from the resolved report folder, so the
post-report diagnostic's unguarded read throws and the operation fails
instead of returning the resolved report-directory path. -/
def c8Env : Env :=
  { cwd := "/cwd", customReportScript := none,
    nycOptions := { tempDir := none, reportDir := some "coverage", rest := [] } }

def c8St : FsState :=
  { nycFolderExists := true, nycFile := some [("/cwd/app.js", [1])],
    existingPaths := ["/cwd/app.js"], jsonFiles := [] }

/-- C8 evaluated at the failing input: with the engine path taken and
`report-dir` resolving to `/cwd/coverage` that contains no
`coverage-final.json`, `coverageReport` ends in an ENOENT throw — the
diagnostic print does affect the result, refuting the claim that the
resolved report-directory path is returned. -/
theorem coverageReport_diagnostic_throws :
    (coverageReport c8Env c8St).result = Except.error TaskErr.enoent
    ∧ (coverageReport c8Env c8St).result
        ≠ Except.ok (TaskResult.reportFolder (resolvePath c8Env.cwd "coverage")) := by
  constructor
  · rfl
  · intro h
    exact Except.noConfusion h

end CodeCoverage
